import Mathlib

/-!
Shallow embedding of the `bevy_enhanced_input` action-resolution engine.

The Rust sources are embedded as executable Lean definitions:

* `ActionState` / `ActionEvents` mirror `src/action.rs` and
  `src/action/events.rs` (the event bitset is a `Nat` with the same
  bitflag layout as the Rust `u8`).
* Conditions (`Down`, `Press`, `Hold`, `Chord`, ...) mirror the files under
  `src/condition/`; stateful conditions are embedded by explicit state
  passing (`evaluate` returns the next condition value).
* The per-tick evaluation pipeline pieces mirror the `update` system in
  `src/context.rs`.
* `ContextInstances` mirrors `src/context/instance.rs`, including the
  `binary_search_by_key` insertion used by `add`.

Machine floats (`f32` seconds) are embedded as exact rationals `ℚ`;
Bevy's `Timer` (external library code) is modelled after its documented
`TimerMode::Once` semantics.
-/

namespace BEI

/-- `ActionState` from `src/action.rs`: the three-state action lifecycle.
The derived Rust `Ord` orders `None < Ongoing < Fired`. -/
inductive ActionState where
  | none
  | ongoing
  | fired
deriving DecidableEq, Repr, Inhabited

namespace ActionState

/-- Rank used to mirror the derived `PartialOrd`/`Ord` on `ActionState`. -/
def rank : ActionState → Nat
  | .none => 0
  | .ongoing => 1
  | .fired => 2

instance : LE ActionState := ⟨fun a b => a.rank ≤ b.rank⟩
instance : LT ActionState := ⟨fun a b => a.rank < b.rank⟩

instance : DecidableRel (· ≤ · : ActionState → ActionState → Prop) :=
  fun a b => inferInstanceAs (Decidable (a.rank ≤ b.rank))

instance : DecidableRel (· < · : ActionState → ActionState → Prop) :=
  fun a b => inferInstanceAs (Decidable (a.rank < b.rank))

/-- `Ord::max` on `ActionState`. -/
def max (a b : ActionState) : ActionState := if a.rank ≤ b.rank then b else a

/-- `Ord::min` on `ActionState`. -/
def min (a b : ActionState) : ActionState := if a.rank ≤ b.rank then a else b

end ActionState

/-- The bitflag constants of `ActionEvents` from `src/action/events.rs`,
embedded as an abbreviation for the `u8` bitset. -/
abbrev ActionEvents := Nat

namespace ActionEvents

/-- `ActionEvents::START = 0b00000001`. -/
def START : ActionEvents := 1
/-- `ActionEvents::ONGOING = 0b00000010`. -/
def ONGOING : ActionEvents := 2
/-- `ActionEvents::FIRE = 0b00000100`. -/
def FIRE : ActionEvents := 4
/-- `ActionEvents::CANCEL = 0b00001000`. -/
def CANCEL : ActionEvents := 8
/-- `ActionEvents::COMPLETE = 0b00010000`. -/
def COMPLETE : ActionEvents := 16
/-- `ActionEvents::empty()`. -/
def empty : ActionEvents := 0

/-- `ActionEvents::new` from `src/action/events.rs`: derives the event
bitset from a state transition, exactly as the Rust `match`. -/
def new (previous current : ActionState) : ActionEvents :=
  match previous, current with
  | .none, .none => empty
  | .none, .ongoing => START ||| ONGOING
  | .none, .fired => START ||| FIRE
  | .ongoing, .none => CANCEL
  | .ongoing, .ongoing => ONGOING
  | .ongoing, .fired => FIRE
  | .fired, .none => COMPLETE
  | .fired, .ongoing => ONGOING
  | .fired, .fired => FIRE

end ActionEvents

/-- `ActionValue` from `src/action/value.rs`.

Modelled from the spec: `src/action/value.rs` is not among the provided
sources; the spec (§4.1) describes a tagged union of 0/1/2/3-dimensional
numeric input. `f32` components are embedded as exact rationals. -/
inductive ActionValue where
  | bool (b : Bool)
  | axis1D (x : ℚ)
  | axis2D (x y : ℚ)
  | axis3D (x y z : ℚ)
deriving DecidableEq, Repr, Inhabited

namespace ActionValue

/-- Dimension tag of an `ActionValue` (`ActionValueDim` in the source). -/
inductive Dim where
  | bool
  | axis1D
  | axis2D
  | axis3D
deriving DecidableEq, Repr

/-- `ActionValue::dim`. -/
def dim : ActionValue → Dim
  | .bool _ => .bool
  | .axis1D _ => .axis1D
  | .axis2D _ _ => .axis2D
  | .axis3D _ _ _ => .axis3D

/-- `ActionValue::zero` for a dimension. -/
def zero : Dim → ActionValue
  | .bool => .bool false
  | .axis1D => .axis1D 0
  | .axis2D => .axis2D 0 0
  | .axis3D => .axis3D 0 0 0

/-- Squared magnitude of the value, viewed as a 3D vector
(`bool` converts to 0.0/1.0, missing axes are zero, per spec §4.1). -/
def lengthSq : ActionValue → ℚ
  | .bool b => if b then 1 else 0
  | .axis1D x => x * x
  | .axis2D x y => x * x + y * y
  | .axis3D x y z => x * x + y * y + z * z

/-- `ActionValue::is_actuated(threshold)`.

Modelled from the spec: §4.1 defines it as an absolute-value (magnitude)
test against the scalar threshold; embedded as a squared-magnitude
comparison to stay within `ℚ`. -/
def isActuated (v : ActionValue) (threshold : ℚ) : Bool :=
  decide (threshold * threshold ≤ v.lengthSq)

/-- `ActionValue::as_bool`: `true` iff the value is non-zero
(spec §4.1 conversion semantics). -/
def asBool : ActionValue → Bool
  | .bool b => b
  | .axis1D x => decide (x ≠ 0)
  | .axis2D x y => decide (x ≠ 0 ∨ y ≠ 0)
  | .axis3D x y z => decide (x ≠ 0 ∨ y ≠ 0 ∨ z ≠ 0)

end ActionValue

/-- Default actuation threshold, `DEFAULT_ACTUATION` from `src/condition.rs`. -/
def DEFAULT_ACTUATION : ℚ := 1 / 2

/-- `Down` from `src/condition/down.rs`: fires when the input exceeds the
actuation threshold. Stateless. -/
structure Down where
  actuation : ℚ
deriving DecidableEq, Repr

/-- `Down::evaluate` from `src/condition/down.rs`. -/
def Down.evaluate (c : Down) (value : ActionValue) : ActionState :=
  if value.isActuated c.actuation then .fired else .none

/-- `Press` from `src/condition/press.rs`: like `Down` but fires only once
until the next actuation. The private `actuated` field is the edge-detection
memory. -/
structure Press where
  actuation : ℚ
  actuated : Bool
deriving DecidableEq, Repr

/-- `Press::new`: starts with `actuated: false`. -/
def Press.new (actuation : ℚ) : Press := ⟨actuation, false⟩

/-- `Press::evaluate` from `src/condition/press.rs`; the mutated `self` is
returned as the second component. -/
def Press.evaluate (c : Press) (value : ActionValue) : ActionState × Press :=
  let previouslyActuated := c.actuated
  let actuated := value.isActuated c.actuation
  let state := if actuated && !previouslyActuated then ActionState.fired else ActionState.none
  (state, { c with actuated := actuated })

/-- `ActionTime` from `src/action.rs`: per-action timing accumulators. -/
structure ActionTime where
  elapsed_secs : ℚ
  fired_secs : ℚ
deriving DecidableEq, Repr

/-- `ActionTime::update` from `src/action.rs`: advances the accumulators by
`delta_secs` according to the given state. -/
def ActionTime.update (t : ActionTime) (delta_secs : ℚ) (state : ActionState) : ActionTime :=
  match state with
  | .none => { elapsed_secs := 0, fired_secs := 0 }
  | .ongoing => { elapsed_secs := t.elapsed_secs + delta_secs, fired_secs := 0 }
  | .fired => { elapsed_secs := t.elapsed_secs + delta_secs,
                fired_secs := t.fired_secs + delta_secs }

/-- The commit tail of the `update` system in `src/context.rs`: after an
action evaluates to `new_state`, the code runs
`action_time.update(delta, *state)` with the *previous* state, then derives
`ActionEvents::new(*state, new_state)` and only then stores `new_state`.
Returns the updated time, the event bitset and the stored state. -/
def commitAction (t : ActionTime) (prev new_state : ActionState) (delta : ℚ) :
    ActionTime × ActionEvents × ActionState :=
  let t' := t.update delta prev
  let events := ActionEvents.new prev new_state
  (t', events, new_state)

/-- `MockSpan` from `src/action.rs`: how long an `ActionMock` stays active.
`Updates` counts context evaluations (`u32`, embedded as `Nat`), `Duration`
is a real-time span (embedded as a nonnegative rational of seconds). -/
inductive MockSpan where
  | updates (ticks : Nat)
  | duration (d : ℚ)
  | manual
deriving DecidableEq, Repr

/-- The span-decrement logic of the mock branch of the `update` system in
`src/context.rs`: returns the new span and whether it expired this tick.
`Updates` decrements by `saturating_sub(1)` (Nat subtraction) and expires
when the count after the decrement is zero; `Duration` subtracts the delta
saturating at zero and expires at zero; `Manual` never expires. -/
def MockSpan.step : MockSpan → ℚ → MockSpan × Bool
  | .updates ticks, _ =>
    let t := ticks - 1
    (.updates t, decide (t = 0))
  | .duration d, delta =>
    let d2 := Max.max (d - delta) 0
    (.duration d2, decide (d2 = 0))
  | .manual, _ => (.manual, false)

/-- `ActionMock` from `src/action.rs`. -/
structure ActionMock where
  state : ActionState
  value : ActionValue
  span : MockSpan
  enabled : Bool
deriving DecidableEq, Repr

/-- `ActionMock::once`: span `Updates(1)`, enabled. -/
def ActionMock.once (state : ActionState) (value : ActionValue) : ActionMock :=
  ⟨state, value, .updates 1, true⟩

/-- `ActionMock::new` with an arbitrary span: enabled. -/
def ActionMock.mk_new (state : ActionState) (value : ActionValue) (span : MockSpan) :
    ActionMock :=
  ⟨state, value, span, true⟩

/-- The mock branch of the `update` system in `src/context.rs`: decrements
the span, reports the mocked state and value, and clears `enabled` if the
span expired. -/
def mockUpdate (m : ActionMock) (delta : ℚ) : (ActionState × ActionValue) × ActionMock :=
  let (span2, expired) := m.span.step delta
  ((m.state, m.value),
   { m with span := span2, enabled := if expired then false else m.enabled })

/-- One action evaluation step of the `update` system in `src/context.rs`,
selecting between the inactive-context branch, the mock branch and the
bindings branch. `inputEval` stands for the full bindings/modifiers/
conditions evaluation (the `else` branch of the source), which the mock
branch skips entirely. -/
def evaluateActionStep (contextActive : Bool) (mock : Option ActionMock) (delta : ℚ)
    (dim : ActionValue.Dim) (inputEval : ActionState × ActionValue) :
    (ActionState × ActionValue) × Option ActionMock :=
  if !contextActive then ((.none, .zero dim), mock)
  else
    match mock with
    | some m =>
      if m.enabled then
        let (out, m2) := mockUpdate m delta
        (out, some m2)
      else (inputEval, some m)
    | none => (inputEval, none)

/-- Bevy `Timer` in `TimerMode::Once`, as used by `Hold` via
`Timer::from_seconds(hold_time, TimerMode::Once)`.

Modelled from the spec: the timer is external library code (`bevy_time`);
this follows its documented one-shot semantics. `tick` on an already
finished timer is a no-op except that `just_finished` turns off; otherwise
it advances `elapsed` (clamped at `duration`), and sets `finished` and
`just_finished` when the duration is reached. -/
structure Timer where
  duration : ℚ
  elapsed : ℚ
  finished : Bool
  justFinished : Bool
deriving DecidableEq, Repr

namespace Timer

/-- `Timer::from_seconds(d, TimerMode::Once)`. -/
def fromSeconds (d : ℚ) : Timer := ⟨d, 0, false, false⟩

/-- `Timer::tick(delta)` in `Once` mode. -/
def tick (t : Timer) (delta : ℚ) : Timer :=
  if t.finished then { t with justFinished := false }
  else
    let e := Min.min (t.elapsed + delta) t.duration
    let f := decide (t.duration ≤ e)
    { t with elapsed := e, finished := f, justFinished := f }

/-- `Timer::reset`. -/
def reset (t : Timer) : Timer :=
  { t with elapsed := 0, finished := false, justFinished := false }

end Timer

/-- `Hold` from `src/condition/hold.rs`. -/
structure Hold where
  one_shot : Bool
  actuation : ℚ
  timer : Timer
deriving DecidableEq, Repr

/-- `Hold::new(hold_time)`: `one_shot = false`, default actuation, a fresh
one-shot timer. -/
def Hold.new (hold_time : ℚ) : Hold :=
  ⟨false, DEFAULT_ACTUATION, Timer.fromSeconds hold_time⟩

/-- `Hold::evaluate` from `src/condition/hold.rs`; the mutated `self` is
returned as the second component. -/
def Hold.evaluate (h : Hold) (delta : ℚ) (value : ActionValue) : ActionState × Hold :=
  let actuated := value.isActuated h.actuation
  let timer := if actuated then h.timer.tick delta else h.timer.reset
  let state :=
    if timer.finished then
      if timer.justFinished || !h.one_shot then ActionState.fired else ActionState.none
    else if actuated then ActionState.ongoing
    else ActionState.none
  (state, { h with timer := timer })

/-- Repeated evaluation of a `Hold` condition over a sequence of
(delta, value) samples, returning the state produced at each call. -/
def Hold.run (h : Hold) (steps : List (ℚ × ActionValue)) : List ActionState × Hold :=
  match steps with
  | [] => ([], h)
  | (d, v) :: rest =>
    let sh := h.evaluate d v
    let rest2 := sh.2.run rest
    (sh.1 :: rest2.1, rest2.2)

/-- `Chord` from `src/condition/chord.rs`: the watched sibling action
entities (entity ids embedded as `Nat`). -/
structure Chord where
  actions : List Nat
deriving DecidableEq, Repr

/-- The loop body of `Chord::evaluate` from `src/condition/chord.rs`: folds
over the watched entities accumulating `(max_state, all_fired)`. A stale
entity (`actions.get(action)` fails) is warned about and skipped via
`continue`, exactly as in the source. -/
def chordFold (env : Nat → Option ActionState) :
    List Nat → ActionState × Bool → ActionState × Bool
  | [], acc => acc
  | a :: rest, acc =>
    match env a with
    | none => chordFold env rest acc
    | some st =>
      let allFired := if st ≠ .fired then false else acc.2
      let maxState := if acc.1 < st then st else acc.1
      chordFold env rest (maxState, allFired)

/-- `Chord::evaluate` from `src/condition/chord.rs`: inherits the maximum
state of the watched actions, capped at `Ongoing` unless all of them fired.
`env` is the sibling-action lookup (`ActionsQuery::get`); `none` is a stale
entity. -/
def Chord.evaluate (c : Chord) (env : Nat → Option ActionState) : ActionState :=
  let acc := chordFold env c.actions (.none, true)
  if !acc.2 then acc.1.min .ongoing else acc.1

/-- The claim's reading of `Chord::evaluate`, stated from the spec's words
for comparison: a stale reference is treated as if that action's state were
`None` (so it still counts against `all_fired`). -/
def Chord.evaluateStaleAsNoneSpec (c : Chord) (env : Nat → Option ActionState) :
    ActionState :=
  let acc := chordFold (fun a => some ((env a).getD .none)) c.actions (.none, true)
  if !acc.2 then acc.1.min .ongoing else acc.1

/-- `ContextInstance` from `src/context/instance.rs`, restricted to the
fields relevant to registry ordering: the context entity (standing in for
`(entity, type_id)`) and the priority. -/
structure ContextInstance where
  entity : Nat
  priority : Nat
deriving DecidableEq, Repr

/-- The loop of Rust `slice::binary_search_by` over the key
`Reverse(inst.priority)` compared with `Reverse(priority)` (so the
comparison is `Less` iff `priority < inst.priority`), as invoked by
`ContextInstances::add`. The interval `[left, right)` shrinks by at least
one element per iteration, so `fuel = l.length` iterations always suffice;
a found key returns its index (`Ok(mid)`), exhaustion returns the
insertion point (`Err(left)`), and `unwrap_or_else(|i| i)` makes `add` use
the index either way. -/
def bsGoFuel (l : List ContextInstance) (p : Nat) : Nat → Nat → Nat → Nat
  | 0, left, _right => left
  | fuel + 1, left, right =>
    if left < right then
      let mid := left + (right - left) / 2
      let x := (l.getD mid ⟨0, 0⟩).priority
      if p < x then bsGoFuel l p fuel (mid + 1) right
      else if x < p then bsGoFuel l p fuel left mid
      else mid
    else left

/-- `binary_search_by_key(&Reverse(priority), |inst| Reverse(inst.priority))
.unwrap_or_else(|i| i)` from `ContextInstances::add`. -/
def binarySearchIdx (l : List ContextInstance) (p : Nat) : Nat :=
  bsGoFuel l p l.length 0 l.length

/-- `ContextInstances::add` from `src/context/instance.rs`: inserts the new
instance at the index returned by the reverse-priority binary search. -/
def ContextInstances.add (l : List ContextInstance) (inst : ContextInstance) :
    List ContextInstance :=
  l.insertIdx (binarySearchIdx l inst.priority) inst

/-- `ContextInstances::remove` from `src/context/instance.rs`: removes the
instance at `position(|inst| inst.entity == entity ...)`. The source
`expect`s the instance to exist; on a missing entity this embedding removes
nothing. -/
def ContextInstances.remove (l : List ContextInstance) (entity : Nat) :
    List ContextInstance :=
  l.eraseP fun inst => inst.entity == entity

/-- A registry operation: `add` on context insertion, `remove` on context
removal (the two observers `register`/`unregister` in `src/context.rs`). -/
inductive InstanceOp where
  | add (entity priority : Nat)
  | remove (entity : Nat)
deriving DecidableEq, Repr

/-- Applies one registry operation. -/
def applyOp (l : List ContextInstance) : InstanceOp → List ContextInstance
  | .add e p => ContextInstances.add l ⟨e, p⟩
  | .remove e => ContextInstances.remove l e

/-- Applies a sequence of registry operations to the initially empty
registry. -/
def applyOps (ops : List InstanceOp) : List ContextInstance :=
  ops.foldl applyOp []

/-- The registry order invariant: priorities are non-increasing along the
list (the `update`/`apply` systems iterate the list front to back). -/
def sortedDesc (l : List ContextInstance) : Prop :=
  List.Pairwise (fun a b => b.priority ≤ a.priority) l

/-- An action's configuration for the input-consumption scenario of the
`update` system in `src/context.rs`: the `ActionSettings::consume_input`
flag and the action's bindings (key ids embedded as `Nat`). The embedded
actions are boolean, with no modifiers and no conditions attached, as in
`tests/consume_input.rs`. -/
structure ActionCfg where
  consume_input : Bool
  bindings : List Nat
deriving DecidableEq, Repr

/-- The per-binding loop of the `update` system in `src/context.rs`,
specialised to boolean bindings with no modifiers or conditions. Reading a
consumed input yields `ActionValue::zero` (per the reader contract stated
on `add_input_context`; `context/input_reader.rs` is missing from the
sources). With no conditions attached the per-binding state is `Fired` on
any non-zero value and `None` otherwise (zero-threshold `Down`; the
`TriggerTracker` in `context/trigger_tracker.rs` is likewise missing and
modelled from the spec §4.4). The fold mirrors the source's
`Less`/`Equal`/`Greater` arms maintaining the `consume_buffer`, and the
tail mirrors the final `consume_input` flush. Returns the action's state
and the consumed set after the action. -/
def evalActionBindings (raw : Nat → Bool) (consumed : List Nat) (cfg : ActionCfg) :
    ActionState × List Nat :=
  let step := fun (acc : ActionState × List Nat) (b : Nat) =>
    let value := if consumed.contains b then false else raw b
    let current : ActionState := if value then .fired else .none
    if current = .none then acc
    else if current < acc.1 then acc
    else if current = acc.1 then
      (acc.1, if cfg.consume_input then acc.2 ++ [b] else acc.2)
    else
      (current, if cfg.consume_input then [b] else acc.2)
  let res := cfg.bindings.foldl step (.none, [])
  (res.1, if cfg.consume_input && decide (res.1 ≠ .none) then consumed ++ res.2 else consumed)

/-- The action loop of the `update` system for one context: evaluates the
actions in order, threading the consumed-inputs set. -/
def updateActionsGo (raw : Nat → Bool) : List ActionCfg → List Nat → List ActionState
  | [], _ => []
  | cfg :: rest, consumed =>
    let r := evalActionBindings raw consumed cfg
    r.1 :: updateActionsGo raw rest r.2

/-- Evaluates a list of actions from an empty consumed set (the set is
cleared at the start of every schedule run by `reader.clear_consumed`). -/
def updateActions (raw : Nat → Bool) (cfgs : List ActionCfg) : List ActionState :=
  updateActionsGo raw cfgs []

/-- `ConditionKind` from `src/condition.rs`. -/
inductive ConditionKind where
  | explicit
  | implicit
  | blocker
deriving DecidableEq, Repr

/-- `BlockBy` condition over a sibling-action list.

Modelled from the spec: `src/condition/block_by.rs` is missing from the
sources. The spec (§4.4) lists `BlockBy` as the `Blocker` condition over a
list of sibling actions; its blocking test is pinned by the repository's
own test `blocker` in `tests/condition_kind.rs`, in which a sibling in
`Ongoing` does **not** block the host (the host still fires) while a
sibling in `Fired` does. Accordingly `evaluate` returns `None` iff some
watched action is currently `Fired` — a stale entity is warned about and
skipped, which coincides with treating it as `None` here — and otherwise
returns `Fired`, which for a `Blocker` contributes nothing to the combined
state. -/
structure BlockBy where
  actions : List Nat
deriving DecidableEq, Repr

/-- `BlockBy::evaluate` (see the modelling note on `BlockBy`). -/
def BlockBy.evaluate (c : BlockBy) (env : Nat → Option ActionState) : ActionState :=
  if c.actions.any fun a => ((env a).getD .none) == .fired then .none else .fired

/-- The one-level condition combination policy of the trigger tracker.

Modelled from the spec: `context/trigger_tracker.rs` is missing from the
sources. Per §4.4: any `Blocker` result of `None` forces `None`; otherwise,
with no `Explicit`/`Implicit` conditions the tracked value acts as a
zero-threshold `Down` (`Fired` on any non-zero value); otherwise the result
is the maximum state over `Explicit`/`Implicit` results, capped at
`Ongoing` unless every `Implicit` result is `Fired`. -/
def combineConditions (value : ActionValue)
    (results : List (ConditionKind × ActionState)) : ActionState :=
  let blocked := results.any fun r => r.1 == ConditionKind.blocker && r.2 == ActionState.none
  let relevant := results.filter fun r => r.1 != ConditionKind.blocker
  if blocked then .none
  else if relevant.isEmpty then (if value.asBool then .fired else .none)
  else
    let maxState := relevant.foldl (fun acc r => acc.max r.2) ActionState.none
    let allImplicitsFired :=
      relevant.all fun r => r.1 != ConditionKind.implicit || r.2 == ActionState.fired
    if allImplicitsFired then maxState else maxState.min .ongoing

end BEI

namespace BEI

/-- C1: For every pair of trigger states, `ActionEvents.new prev curr` returns
exactly the bitset of the fixed transition table from `src/action/events.rs`:
(None,None) → empty; (None,Ongoing) → Start|Ongoing; (None,Fired) → Start|Fire;
(Ongoing,None) → Cancel; (Ongoing,Ongoing) → Ongoing; (Ongoing,Fired) → Fire;
(Fired,None) → Complete; (Fired,Ongoing) → Ongoing; (Fired,Fired) → Fire. -/
theorem actionEvents_new_transition_table :
    ActionEvents.new .none .none = ActionEvents.empty ∧
    ActionEvents.new .none .ongoing = (ActionEvents.START ||| ActionEvents.ONGOING) ∧
    ActionEvents.new .none .fired = (ActionEvents.START ||| ActionEvents.FIRE) ∧
    ActionEvents.new .ongoing .none = ActionEvents.CANCEL ∧
    ActionEvents.new .ongoing .ongoing = ActionEvents.ONGOING ∧
    ActionEvents.new .ongoing .fired = ActionEvents.FIRE ∧
    ActionEvents.new .fired .none = ActionEvents.COMPLETE ∧
    ActionEvents.new .fired .ongoing = ActionEvents.ONGOING ∧
    ActionEvents.new .fired .fired = ActionEvents.FIRE := by
  decide

/-- C8: `Down(threshold).evaluate` returns `Fired` exactly when the value
passes the actuation test and `None` otherwise; `Press(threshold).evaluate`
returns `Fired` only on a rising edge (previous call not actuated, current
call actuated), and in particular never returns `Fired` on the second of two
consecutive actuated calls. -/
theorem down_fires_iff_actuated_press_fires_on_rising_edge
    (a : ℚ) (v v1 v2 : ActionValue) (p : Press) :
    (Down.evaluate ⟨a⟩ v = .fired ↔ v.isActuated a = true) ∧
    (Down.evaluate ⟨a⟩ v = .none ↔ v.isActuated a = false) ∧
    ((p.evaluate v).1 = .fired ↔
      (v.isActuated p.actuation = true ∧ p.actuated = false)) ∧
    (v1.isActuated p.actuation = true → v2.isActuated p.actuation = true →
      (((p.evaluate v1).2).evaluate v2).1 = .none) := by
  refine ⟨?_, ?_, ?_, ?_⟩
  · unfold Down.evaluate
    cases h : v.isActuated a <;> simp [h]
  · unfold Down.evaluate
    cases h : v.isActuated a <;> simp [h]
  · unfold Press.evaluate
    cases h : v.isActuated p.actuation <;> cases hp : p.actuated <;> simp [h, hp]
  · intro h1 h2
    unfold Press.evaluate
    simp [h1, h2]

/-- Witness for C8 at concrete inputs: threshold 1/2, first call with value
1 (actuated), second call with value 1 (still actuated) returns `None`. -/
theorem down_fires_iff_actuated_press_fires_on_rising_edge_witness :
    ((ActionValue.axis1D 1).isActuated DEFAULT_ACTUATION = true) ∧
    ((((Press.new DEFAULT_ACTUATION).evaluate (.axis1D 1)).2).evaluate (.axis1D 1)).1 =
      .none := by
  have hact : (ActionValue.axis1D 1).isActuated DEFAULT_ACTUATION = true := by
    norm_num [ActionValue.isActuated, ActionValue.lengthSq, DEFAULT_ACTUATION]
  refine ⟨hact, ?_⟩
  exact (down_fires_iff_actuated_press_fires_on_rising_edge DEFAULT_ACTUATION
    (.axis1D 1) (.axis1D 1) (.axis1D 1) (Press.new DEFAULT_ACTUATION)).2.2.2
    hact hact

/-- C10: the `update` system advances `ActionTime` with the tick delta using
the action's previous state, before the new state is stored: the previous
state `None` resets both timers (so a newly started action reports zeroed
timers on its first Ongoing/Fired tick), `Ongoing` adds the delta to
`elapsed_secs`, `Fired` adds it to both `elapsed_secs` and `fired_secs`, and
the committed time is independent of the new state, which is stored
afterwards together with the events derived from (previous, new). -/
theorem commit_time_attributed_to_previous_state
    (t : ActionTime) (prev ns ns2 : ActionState) (d : ℚ) :
    ((commitAction t .none ns d).1 = ⟨0, 0⟩) ∧
    ((commitAction t .ongoing ns d).1 = ⟨t.elapsed_secs + d, 0⟩) ∧
    ((commitAction t .fired ns d).1 = ⟨t.elapsed_secs + d, t.fired_secs + d⟩) ∧
    ((commitAction t prev ns d).1 = (commitAction t prev ns2 d).1) ∧
    ((commitAction t prev ns d).2.1 = ActionEvents.new prev ns) ∧
    ((commitAction t prev ns d).2.2 = ns) := by
  refine ⟨rfl, rfl, rfl, rfl, rfl, rfl⟩

/-- C9: an enabled `ActionMock` with span `Updates(n)` still reports the
mocked state and value on evaluation, decrements `n` by saturating
subtraction, and is disabled exactly when the count after the decrement is
zero; consequently `Updates(0)` behaves identically to `Updates(1)`: one
more mocked evaluation, then disabled. -/
theorem mock_updates_saturating_decrement
    (n : Nat) (st : ActionState) (v : ActionValue) (d : ℚ) :
    ((mockUpdate ⟨st, v, .updates n, true⟩ d).1 = (st, v)) ∧
    ((mockUpdate ⟨st, v, .updates n, true⟩ d).2.span = .updates (n - 1)) ∧
    ((mockUpdate ⟨st, v, .updates n, true⟩ d).2.enabled = false ↔ n - 1 = 0) ∧
    (mockUpdate ⟨st, v, .updates 0, true⟩ d = mockUpdate ⟨st, v, .updates 1, true⟩ d) := by
  refine ⟨rfl, rfl, ?_, rfl⟩
  unfold mockUpdate MockSpan.step
  by_cases h : n - 1 = 0 <;> simp [h]

/-- C6: evaluating an action whose `ActionMock` is enabled with span
`Updates(1)` reports exactly the mocked state and value (the bindings
evaluation `ie` is skipped), disables the mock during that same evaluation,
and the following evaluation returns the normal bindings evaluation again. -/
theorem mock_once_overrides_exactly_one_update
    (m : ActionMock) (hen : m.enabled = true) (hspan : m.span = .updates 1)
    (d d2 : ℚ) (dim : ActionValue.Dim) (ie ie2 : ActionState × ActionValue) :
    ((evaluateActionStep true (some m) d dim ie).1 = (m.state, m.value)) ∧
    ((evaluateActionStep true (some m) d dim ie).2 =
      some { m with span := .updates 0, enabled := false }) ∧
    ((evaluateActionStep true
        (some { m with span := .updates 0, enabled := false }) d2 dim ie2).1 = ie2) := by
  refine ⟨?_, ?_, ?_⟩
  · simp [evaluateActionStep, hen, mockUpdate, hspan, MockSpan.step]
  · simp [evaluateActionStep, hen, mockUpdate, hspan, MockSpan.step]
  · simp [evaluateActionStep]

/-- Unfolding `Hold.run` on a cons cell. -/
lemma hold_run_cons (h : Hold) (d : ℚ) (v : ActionValue) (rest : List (ℚ × ActionValue)) :
    (h.run ((d, v) :: rest)).1 =
      (h.evaluate d v).1 :: ((h.evaluate d v).2.run rest).1 := rfl

/-- Evaluating `Hold` while actuated with the timer already finished keeps
firing (for `one_shot = false`) and leaves the timer finished. -/
lemma hold_evaluate_finished (h : Hold) (d : ℚ) (v : ActionValue)
    (hos : h.one_shot = false) (hv : v.isActuated h.actuation = true)
    (hfin : h.timer.finished = true) :
    h.evaluate d v =
      (.fired,
       ⟨h.one_shot, h.actuation, ⟨h.timer.duration, h.timer.elapsed, true, false⟩⟩) := by
  obtain ⟨os, act, tm⟩ := h
  obtain ⟨du, el, fi, ju⟩ := tm
  simp only at hos hv hfin
  subst hos hfin
  simp [Hold.evaluate, Timer.tick, hv]

/-- Evaluating `Hold` while actuated, before the hold time accumulates,
returns `Ongoing` and advances the timer by the delta. -/
lemma hold_evaluate_ongoing (h : Hold) (d : ℚ) (v : ActionValue)
    (hv : v.isActuated h.actuation = true) (hfin : h.timer.finished = false)
    (hc : h.timer.elapsed + d < h.timer.duration) :
    h.evaluate d v =
      (.ongoing,
       ⟨h.one_shot, h.actuation,
        ⟨h.timer.duration, h.timer.elapsed + d, false, false⟩⟩) := by
  obtain ⟨os, act, tm⟩ := h
  obtain ⟨du, el, fi, ju⟩ := tm
  simp only at hv hfin hc
  subst hfin
  have hmin : Min.min (el + d) du = el + d := min_eq_left hc.le
  have hle : ¬ du ≤ el + d := not_le.mpr hc
  simp [Hold.evaluate, Timer.tick, hv, hmin, hle]

/-- Evaluating `Hold` while actuated on the tick where the accumulated time
reaches the duration returns `Fired` and finishes the timer (clamped at the
duration). -/
lemma hold_evaluate_crossing (h : Hold) (d : ℚ) (v : ActionValue)
    (hv : v.isActuated h.actuation = true) (hfin : h.timer.finished = false)
    (hc : h.timer.duration ≤ h.timer.elapsed + d) :
    h.evaluate d v =
      (.fired,
       ⟨h.one_shot, h.actuation, ⟨h.timer.duration, h.timer.duration, true, true⟩⟩) := by
  obtain ⟨os, act, tm⟩ := h
  obtain ⟨du, el, fi, ju⟩ := tm
  simp only at hv hfin hc
  subst hfin
  have hmin : Min.min (el + d) du = du := min_eq_right hc
  simp [Hold.evaluate, Timer.tick, hv, hmin, hc]

/-- Evaluating `Hold` on a non-actuated sample returns `None` and resets the
timer, regardless of its progress. -/
lemma hold_evaluate_released (h : Hold) (d : ℚ) (v : ActionValue)
    (hnv : v.isActuated h.actuation = false) :
    h.evaluate d v = (.none, { h with timer := h.timer.reset }) := by
  obtain ⟨os, act, tm⟩ := h
  simp only at hnv
  simp [Hold.evaluate, Timer.reset, hnv]

/-- Sum of a `take`-prefix of a list of nonnegative rationals is
nonnegative. -/
lemma sum_take_nonneg (l : List ℚ) (hl : ∀ x ∈ l, 0 ≤ x) (n : Nat) :
    0 ≤ (l.take n).sum :=
  List.sum_nonneg fun x hx => hl x (List.take_subset n l hx)

/-- Under continuous actuation, the state reported by a `Hold` with
`one_shot = false` at each call is `Ongoing` while the initial elapsed time
plus the accumulated deltas stays below the duration, and `Fired` from the
call where it reaches the duration onward. -/
lemma hold_run_formula (v : ActionValue) (steps : List ℚ) (h : Hold)
    (hos : h.one_shot = false)
    (hv : v.isActuated h.actuation = true)
    (hnn : ∀ x ∈ steps, 0 ≤ x)
    (hfe : h.timer.finished = true → h.timer.duration ≤ h.timer.elapsed) :
    ∀ i, i < steps.length →
      (h.run (steps.map fun d => (d, v))).1[i]? =
        some (if h.timer.elapsed + (steps.take (i + 1)).sum < h.timer.duration
              then ActionState.ongoing else ActionState.fired) := by
  induction steps generalizing h with
  | nil => intro i hi; simp at hi
  | cons d rest ih =>
    intro i hi
    have hd0 : 0 ≤ d := hnn d (by simp)
    have hrest : ∀ x ∈ rest, 0 ≤ x := fun x hx => hnn x (by simp [hx])
    rw [List.map_cons, hold_run_cons]
    by_cases hfin : h.timer.finished = true
    · -- already finished: every call keeps firing
      have hdl := hfe hfin
      rw [hold_evaluate_finished h d v hos hv hfin]
      match i with
      | 0 =>
        have hng : ¬ h.timer.elapsed + ((d :: rest).take 1).sum < h.timer.duration := by
          simp only [List.take, List.sum_cons, List.sum_nil, add_zero]
          exact not_lt.mpr (le_add_of_le_of_nonneg hdl hd0)
        simp only [List.getElem?_cons_zero]
        rw [if_neg hng]
      | i + 1 =>
        have hi2 : i < rest.length := by simpa using hi
        have hrec := ih ⟨h.one_shot, h.actuation,
            ⟨h.timer.duration, h.timer.elapsed, true, false⟩⟩
          hos hv hrest (fun _ => hdl) i hi2
        simp only [List.getElem?_cons_succ]
        rw [hrec]
        have hs : 0 ≤ (rest.take (i + 1)).sum := sum_take_nonneg rest hrest (i + 1)
        have h1 : ¬ h.timer.elapsed + (rest.take (i + 1)).sum < h.timer.duration :=
          not_lt.mpr (le_add_of_le_of_nonneg hdl hs)
        have hs2 : 0 ≤ ((d :: rest).take (i + 2)).sum := sum_take_nonneg (d :: rest) hnn (i + 2)
        have h2 : ¬ h.timer.elapsed + ((d :: rest).take (i + 2)).sum < h.timer.duration :=
          not_lt.mpr (le_add_of_le_of_nonneg hdl hs2)
        rw [if_neg h1, if_neg h2]
    · have hfin2 : h.timer.finished = false := by simpa using hfin
      by_cases hc : h.timer.elapsed + d < h.timer.duration
      · -- still before the hold time: Ongoing, timer advances
        rw [hold_evaluate_ongoing h d v hv hfin2 hc]
        match i with
        | 0 =>
          have hg : h.timer.elapsed + ((d :: rest).take 1).sum < h.timer.duration := by
            simpa using hc
          simp only [List.getElem?_cons_zero]
          rw [if_pos hg]
        | i + 1 =>
          have hi2 : i < rest.length := by simpa using hi
          have hrec := ih ⟨h.one_shot, h.actuation,
              ⟨h.timer.duration, h.timer.elapsed + d, false, false⟩⟩
            hos hv hrest (fun hcontra => by simp at hcontra) i hi2
          simp only [List.getElem?_cons_succ]
          rw [hrec]
          simp only [List.take, List.sum_cons]
          rw [show h.timer.elapsed + d + (rest.take (i + 1)).sum =
                h.timer.elapsed + (d + (rest.take (i + 1)).sum) from by ring]
      · -- the hold time is reached on this call: Fired, timer clamps
        have hc2 : h.timer.duration ≤ h.timer.elapsed + d := not_lt.mp hc
        rw [hold_evaluate_crossing h d v hv hfin2 hc2]
        match i with
        | 0 =>
          have hng : ¬ h.timer.elapsed + ((d :: rest).take 1).sum < h.timer.duration := by
            simpa using hc
          simp only [List.getElem?_cons_zero]
          rw [if_neg hng]
        | i + 1 =>
          have hi2 : i < rest.length := by simpa using hi
          have hrec := ih ⟨h.one_shot, h.actuation,
              ⟨h.timer.duration, h.timer.duration, true, true⟩⟩
            hos hv hrest (fun _ => le_refl _) i hi2
          simp only [List.getElem?_cons_succ]
          rw [hrec]
          have hs : 0 ≤ (rest.take (i + 1)).sum := sum_take_nonneg rest hrest (i + 1)
          have h1 : ¬ h.timer.duration + (rest.take (i + 1)).sum < h.timer.duration :=
            not_lt.mpr (le_add_of_nonneg_right hs)
          have h2 : ¬ h.timer.elapsed + ((d :: rest).take (i + 2)).sum < h.timer.duration := by
            refine not_lt.mpr ?_
            simp only [List.take, List.sum_cons]
            have hs2 := sum_take_nonneg rest hrest (i + 1)
            linarith
          rw [if_neg h1, if_neg h2]

/-- C7: for `Hold(d)` with `one_shot = false`, starting from a reset timer
under continuous actuation, `evaluate` returns `Ongoing` on every call while
the accumulated actuated time is below `d` and `Fired` on every call once it
reaches `d`; and whenever actuation stops, `evaluate` returns `None` and
resets the timer (elapsed `0`, not finished), so a new actuation restarts
the hold from zero and no `Fired` is produced for the aborted attempt. -/
theorem hold_ongoing_until_duration_then_fired
    (d : ℚ) (v : ActionValue) (steps : List ℚ)
    (hv : v.isActuated DEFAULT_ACTUATION = true)
    (hnn : ∀ x ∈ steps, 0 ≤ x) :
    (∀ i, i < steps.length →
      ((Hold.new d).run (steps.map fun x => (x, v))).1[i]? =
        some (if (steps.take (i + 1)).sum < d then ActionState.ongoing
              else ActionState.fired)) ∧
    (∀ (h : Hold) (dr : ℚ) (vr : ActionValue), vr.isActuated h.actuation = false →
      (h.evaluate dr vr).1 = .none ∧
      (h.evaluate dr vr).2.timer.elapsed = 0 ∧
      (h.evaluate dr vr).2.timer.finished = false) := by
  constructor
  · intro i hi
    have hrec := hold_run_formula v steps (Hold.new d) rfl
      (by simpa [Hold.new] using hv) hnn
      (by intro hcon; simp [Hold.new, Timer.fromSeconds] at hcon) i hi
    simpa [Hold.new, Timer.fromSeconds] using hrec
  · intro h dr vr hnv
    rw [hold_evaluate_released h dr vr hnv]
    simp [Timer.reset]

/-- Witness for C7: `Hold(1)` over two actuated half-second steps reports
`Ongoing` then `Fired`. -/
theorem hold_ongoing_until_duration_then_fired_witness :
    ((ActionValue.axis1D 1).isActuated DEFAULT_ACTUATION = true) ∧
    (∀ x ∈ [(1:ℚ)/2, 1/2], 0 ≤ x) ∧
    (((Hold.new 1).run ([(1:ℚ)/2, 1/2].map fun x => (x, .axis1D 1))).1[0]? =
      some .ongoing) ∧
    (((Hold.new 1).run ([(1:ℚ)/2, 1/2].map fun x => (x, .axis1D 1))).1[1]? =
      some .fired) := by
  have hact : (ActionValue.axis1D 1).isActuated DEFAULT_ACTUATION = true := by
    norm_num [ActionValue.isActuated, ActionValue.lengthSq, DEFAULT_ACTUATION]
  have hnn : ∀ x ∈ [(1:ℚ)/2, 1/2], 0 ≤ x := by norm_num
  have hmain := (hold_ongoing_until_duration_then_fired 1 (.axis1D 1)
    [(1:ℚ)/2, 1/2] hact hnn).1
  have h0 := hmain 0 (by norm_num)
  have h1 := hmain 1 (by norm_num)
  refine ⟨hact, hnn, ?_, ?_⟩
  · rw [h0]
    simp only [List.take, List.sum_cons, List.sum_nil, add_zero]
    norm_num
  · rw [h1]
    simp only [List.take, List.sum_cons, List.sum_nil, add_zero]
    norm_num

/-- The chord fold ignores exactly the stale entities: folding over a list
equals folding over the sublist of present entities. -/
lemma chordFold_filter_stale (env : Nat → Option ActionState) (l : List Nat) :
    ∀ acc, chordFold env l acc =
      chordFold env (l.filter fun a => (env a).isSome) acc := by
  induction l with
  | nil => intro acc; rfl
  | cons a rest ih =>
    intro acc
    cases h : env a with
    | none => simp [chordFold, h, List.filter_cons, ih]
    | some st => simp [chordFold, h, List.filter_cons, ih]

/-- C5 counterexample: a `Chord` over a stale entity (id 0, absent) and a
`Fired` action (id 1) evaluates to `Fired`, while the claim's
treat-stale-as-`None` semantics would cap it at `Ongoing`. -/
theorem chord_stale_not_treated_as_none_counterexample :
    Chord.evaluate ⟨[0, 1]⟩ (fun a => if a = 1 then some .fired else none) = .fired ∧
    Chord.evaluateStaleAsNoneSpec ⟨[0, 1]⟩
      (fun a => if a = 1 then some .fired else none) = .ongoing :=
  ⟨rfl, rfl⟩

/-- C5 (amended): `Chord::evaluate` never fails on a stale action entity:
the stale reference is only warned about and skipped, so the chord
evaluates exactly as if the stale members were removed from its list (not
as if their state were `None`). -/
theorem chord_stale_reference_skipped (c : Chord) (env : Nat → Option ActionState) :
    Chord.evaluate c env =
      Chord.evaluate ⟨c.actions.filter fun a => (env a).isSome⟩ env := by
  unfold Chord.evaluate
  rw [chordFold_filter_stale env c.actions]

/-- Witness for C6: a concrete `ActionMock::once(Fired, true)` drives one
mocked evaluation and then lets a normal evaluation through. -/
theorem mock_once_overrides_exactly_one_update_witness :
    ((ActionMock.once .fired (.bool true)).enabled = true) ∧
    ((ActionMock.once .fired (.bool true)).span = .updates 1) ∧
    ((evaluateActionStep true (some (ActionMock.once .fired (.bool true))) 0
        .bool (.none, .bool false)).1 = (.fired, .bool true)) := by
  refine ⟨rfl, rfl, ?_⟩
  exact (mock_once_overrides_exactly_one_update (ActionMock.once .fired (.bool true))
    rfl rfl 0 0 .bool (.none, .bool false) (.none, .bool false)).1

/-- Non-increasing priorities give index-wise monotonicity. -/
lemma sortedDesc_get (l : List ContextInstance) (hs : sortedDesc l)
    (i j : Nat) (hij : i ≤ j) (hj : j < l.length) :
    (l.get ⟨j, hj⟩).priority ≤ (l.get ⟨i, lt_of_le_of_lt hij hj⟩).priority := by
  rcases Nat.lt_or_ge i j with h | h
  · exact List.pairwise_iff_getElem.mp hs i j (by omega) hj h
  · have heq : i = j := by omega
    subst heq
    exact le_refl _

/-- Bracketing property of the binary-search loop on a sorted registry: the
returned index is within bounds, the element just before it (if any) has
priority at least `p`, and the element at it (if any) has priority at most
`p`. -/
lemma bsGoFuel_boundary (l : List ContextInstance) (p : Nat) (hs : sortedDesc l) :
    ∀ (fuel left right : Nat), left ≤ right → right ≤ l.length → right - left ≤ fuel →
      (left = 0 ∨ p ≤ (l.getD (left - 1) ⟨0, 0⟩).priority) →
      (right = l.length ∨ (l.getD right ⟨0, 0⟩).priority ≤ p) →
      (bsGoFuel l p fuel left right ≤ l.length ∧
       (bsGoFuel l p fuel left right = 0 ∨
         p ≤ (l.getD (bsGoFuel l p fuel left right - 1) ⟨0, 0⟩).priority) ∧
       (bsGoFuel l p fuel left right = l.length ∨
         (l.getD (bsGoFuel l p fuel left right) ⟨0, 0⟩).priority ≤ p)) := by
  intro fuel
  induction fuel with
  | zero =>
    intro left right hlr hrl hf hL hR
    have heq : left = right := by omega
    subst heq
    exact ⟨hrl, hL, hR⟩
  | succ fuel ih =>
    intro left right hlr hrl hf hL hR
    by_cases hlt : left < right
    · have hunfold : bsGoFuel l p (fuel + 1) left right =
          (if p < (l.getD (left + (right - left) / 2) ⟨0, 0⟩).priority
           then bsGoFuel l p fuel (left + (right - left) / 2 + 1) right
           else if (l.getD (left + (right - left) / 2) ⟨0, 0⟩).priority < p
           then bsGoFuel l p fuel left (left + (right - left) / 2)
           else left + (right - left) / 2) := by
        simp only [bsGoFuel, if_pos hlt]
      rw [hunfold]
      have hmlt : left + (right - left) / 2 < right := by omega
      have hmll : left + (right - left) / 2 < l.length := lt_of_lt_of_le hmlt hrl
      by_cases h1 : p < (l.getD (left + (right - left) / 2) ⟨0, 0⟩).priority
      · rw [if_pos h1]
        refine ih (left + (right - left) / 2 + 1) right (by omega) hrl (by omega)
          (Or.inr ?_) hR
        simpa using le_of_lt h1
      · rw [if_neg h1]
        by_cases h2 : (l.getD (left + (right - left) / 2) ⟨0, 0⟩).priority < p
        · rw [if_pos h2]
          exact ih left (left + (right - left) / 2) (by omega) hmll.le (by omega)
            hL (Or.inr (le_of_lt h2))
        · rw [if_neg h2]
          have hxp : (l.getD (left + (right - left) / 2) ⟨0, 0⟩).priority = p := by omega
          refine ⟨hmll.le, ?_, Or.inr (by omega)⟩
          rcases Nat.eq_zero_or_pos (left + (right - left) / 2) with h0 | h0
          · exact Or.inl h0
          · refine Or.inr ?_
            have hi1 : left + (right - left) / 2 - 1 < l.length := by omega
            have hmono := sortedDesc_get l hs (left + (right - left) / 2 - 1)
              (left + (right - left) / 2) (by omega) hmll
            have hgd1 : l.getD (left + (right - left) / 2) ⟨0, 0⟩ =
                l.get ⟨left + (right - left) / 2, hmll⟩ := by
              rw [List.getD_eq_getElem l ⟨0, 0⟩ hmll, List.get_eq_getElem]
            have hgd2 : l.getD (left + (right - left) / 2 - 1) ⟨0, 0⟩ =
                l.get ⟨left + (right - left) / 2 - 1, hi1⟩ := by
              rw [List.getD_eq_getElem l ⟨0, 0⟩ hi1, List.get_eq_getElem]
            rw [hgd2]
            rw [hgd1] at hxp
            omega
    · have heq : left = right := by omega
      subst heq
      have hunfold : bsGoFuel l p (fuel + 1) left left = left := by
        simp only [bsGoFuel, if_neg hlt]
      rw [hunfold]
      exact ⟨hrl, hL, hR⟩

/-- Inserting an element at an index whose prefix relates to it and whose
suffix it relates to preserves `Pairwise`. -/
lemma pairwise_insertIdx_of_take_drop {α : Type} {R : α → α → Prop} :
    ∀ (i : Nat) (l : List α) (x : α), i ≤ l.length → List.Pairwise R l →
      (∀ y ∈ l.take i, R y x) → (∀ y ∈ l.drop i, R x y) →
      List.Pairwise R (l.insertIdx i x)
  | 0, l, x, _, hp, _, hd => by
    rw [List.insertIdx_zero]
    refine List.Pairwise.cons ?_ hp
    intro y hy
    exact hd y (by simpa using hy)
  | i + 1, [], x, hi, _, _, _ => by simp at hi
  | i + 1, a :: l, x, hi, hp, ht, hd => by
    rw [List.insertIdx_succ_cons]
    rw [List.pairwise_cons] at hp
    rw [List.pairwise_cons]
    constructor
    · intro y hy
      rcases (List.mem_insertIdx (by simpa using hi)).mp hy with rfl | hy2
      · exact ht a (by simp)
      · exact hp.1 y hy2
    · refine pairwise_insertIdx_of_take_drop i l x (by simpa using hi) hp.2 ?_ ?_
      · intro y hy
        exact ht y (by simp [hy])
      · intro y hy
        exact hd y (by simpa using hy)

/-- Inserting at an index bracketed by the neighbouring priorities keeps
the registry sorted. -/
lemma sortedDesc_insertIdx (l : List ContextInstance) (x : ContextInstance) (i : Nat)
    (hi : i ≤ l.length) (hs : sortedDesc l)
    (hb : i = 0 ∨ x.priority ≤ (l.getD (i - 1) ⟨0, 0⟩).priority)
    (ha : i = l.length ∨ (l.getD i ⟨0, 0⟩).priority ≤ x.priority) :
    sortedDesc (l.insertIdx i x) := by
  refine pairwise_insertIdx_of_take_drop i l x hi hs ?_ ?_
  · intro y hy
    obtain ⟨j, hj, hget⟩ := List.mem_iff_getElem.mp hy
    have hjtake : j < i ∧ j < l.length := by
      simp only [List.length_take] at hj
      omega
    rcases hb with h0 | hble
    · omega
    · have hi1 : i - 1 < l.length := by omega
      have hmono := sortedDesc_get l hs j (i - 1) (by omega) hi1
      have hgd : (l.getD (i - 1) ⟨0, 0⟩).priority = (l.get ⟨i - 1, hi1⟩).priority := by
        rw [List.getD_eq_getElem l ⟨0, 0⟩ hi1, List.get_eq_getElem]
      have hyg : y = l.get ⟨j, hjtake.2⟩ := by
        rw [← hget]
        simp [List.getElem_take]
      rw [hyg]
      rw [hgd] at hble
      exact le_trans hble hmono
  · intro y hy
    obtain ⟨j, hj, hget⟩ := List.mem_iff_getElem.mp hy
    have hjdrop : i + j < l.length := by
      simp only [List.length_drop] at hj
      omega
    have hilen : i < l.length := by omega
    rcases ha with h0 | hale
    · omega
    · have hmono := sortedDesc_get l hs i (i + j) (by omega) hjdrop
      have hgd : (l.getD i ⟨0, 0⟩).priority = (l.get ⟨i, hilen⟩).priority := by
        rw [List.getD_eq_getElem l ⟨0, 0⟩ hilen, List.get_eq_getElem]
      have hyg : y = l.get ⟨i + j, hjdrop⟩ := by
        rw [← hget]
        simp [List.getElem_drop]
      rw [hyg]
      rw [hgd] at hale
      exact le_trans hmono hale

/-- `ContextInstances::add` preserves the descending-priority order. -/
lemma sortedDesc_add (l : List ContextInstance) (inst : ContextInstance)
    (hs : sortedDesc l) : sortedDesc (ContextInstances.add l inst) := by
  unfold ContextInstances.add
  have hb := bsGoFuel_boundary l inst.priority hs l.length 0 l.length
    (Nat.zero_le _) le_rfl (by omega) (Or.inl rfl) (Or.inl rfl)
  exact sortedDesc_insertIdx l inst (binarySearchIdx l inst.priority)
    hb.1 hs hb.2.1 hb.2.2

/-- `ContextInstances::remove` preserves the descending-priority order. -/
lemma sortedDesc_remove (l : List ContextInstance) (e : Nat) (hs : sortedDesc l) :
    sortedDesc (ContextInstances.remove l e) :=
  hs.sublist (List.eraseP_sublist l)

/-- C3 counterexample: two contexts registered with equal priority 7, entity
1 first and entity 2 second; `binary_search_by_key` returns the matching
index `Ok(0)` and `add` inserts there, so the later-registered entity 2 ends
up first in the evaluation order, contradicting the claimed
registration-order tie-break. -/
theorem contextInstances_equal_priority_breaks_registration_order :
    ContextInstances.add (ContextInstances.add [] ⟨1, 7⟩) ⟨2, 7⟩ =
      [⟨2, 7⟩, ⟨1, 7⟩] := rfl

/-- C3 (amended): for every sequence of add and remove operations, the
`ContextInstances` list stays sorted by descending priority (ties are in an
order determined by the binary-search insertion point, which is not in
general registration order). -/
theorem contextInstances_sorted_by_descending_priority (ops : List InstanceOp) :
    sortedDesc (applyOps ops) := by
  suffices h : ∀ (start : List ContextInstance), sortedDesc start →
      sortedDesc (ops.foldl applyOp start) by
    exact h [] List.Pairwise.nil
  induction ops with
  | nil => intro start hstart; exact hstart
  | cons op rest ih =>
    intro start hstart
    rw [List.foldl_cons]
    refine ih (applyOp start op) ?_
    cases op with
    | add e p => exact sortedDesc_add start ⟨e, p⟩ hstart
    | remove e => exact sortedDesc_remove start e hstart

/-- C2 counterexample: with the key held, a first-registered action with
`consume_input = true` and a second with `consume_input = false`, both bound
to the same key, evaluate to `Fired` and `None` — not both `Fired` as
claimed. This matches the repository's own test `consume_then_passthrough`
in `tests/consume_input.rs`, which asserts the second action is consumed. -/
theorem consume_then_passthrough_counterexample :
    (updateActions (fun _ => true) [⟨true, [0]⟩, ⟨false, [0]⟩] =
      [ActionState.fired, ActionState.none]) ∧
    ([ActionState.fired, ActionState.none] ≠ [ActionState.fired, ActionState.fired]) :=
  ⟨rfl, by decide⟩

/-- C2 (amended): with a key held, for two actions of the same context each
with one binding to that key, evaluated in registration order: if the first
has `consume_input = true`, the first fires and the second reports `None`
regardless of the second's own `consume_input` flag (consumption is decided
by the consuming action, not by the later reader); both fire when the first
has `consume_input = false`. -/
theorem consume_input_first_registered_wins (raw : Nat → Bool) (k : Nat)
    (hk : raw k = true) (c2 : Bool) :
    (updateActions raw [⟨true, [k]⟩, ⟨c2, [k]⟩] =
      [ActionState.fired, ActionState.none]) ∧
    (updateActions raw [⟨false, [k]⟩, ⟨c2, [k]⟩] =
      [ActionState.fired, ActionState.fired]) := by
  have hlt : ¬ (ActionState.fired < ActionState.none) := by decide
  have hne : ActionState.fired ≠ ActionState.none := by decide
  constructor <;>
    simp [updateActions, updateActionsGo, evalActionBindings, hk, hlt, hne]

/-- Witness for C2 (amended) at the concrete key 0 with both settings of
the second action's flag. -/
theorem consume_input_first_registered_wins_witness :
    ((fun _ : Nat => true) 0 = true) ∧
    (updateActions (fun _ => true) [⟨true, [0]⟩, ⟨true, [0]⟩] =
      [ActionState.fired, ActionState.none]) ∧
    (updateActions (fun _ => true) [⟨false, [0]⟩, ⟨true, [0]⟩] =
      [ActionState.fired, ActionState.fired]) := by
  have h := consume_input_first_registered_wins (fun _ => true) 0 rfl true
  exact ⟨rfl, h.1, h.2⟩

/-- C4 counterexample: a `BlockBy([1])` whose watched sibling is currently
`Ongoing` evaluates to `Fired` (non-blocking) and the host action's combined
state over a pressed binding stays `Fired`, not `None` as claimed. This is
the tick of the repository test `blocker` in `tests/condition_kind.rs`
where the `Release`-driven sibling is `Ongoing` and the test asserts the
host still fires. -/
theorem blockBy_ongoing_sibling_does_not_block_counterexample :
    (BlockBy.evaluate ⟨[1]⟩ (fun a => if a = 1 then some .ongoing else none) = .fired) ∧
    (combineConditions (.bool true)
       [(ConditionKind.blocker,
         BlockBy.evaluate ⟨[1]⟩ (fun a => if a = 1 then some .ongoing else none))] =
       .fired) ∧
    (ActionState.fired ≠ ActionState.none) :=
  ⟨rfl, rfl, by decide⟩

/-- C4 (amended): `BlockBy` returns `None` exactly when some listed sibling
action's current state is `Fired`; in that case it forces the host's
combined state to `None`. When no listed sibling is `Fired` it returns
`Fired` and, being a `Blocker`, contributes nothing: the combined state is
exactly what the remaining conditions and value produce. -/
theorem blockBy_blocks_iff_some_sibling_fired (c : BlockBy)
    (env : Nat → Option ActionState) (value : ActionValue)
    (results : List (ConditionKind × ActionState)) :
    (BlockBy.evaluate c env = .none ↔ ∃ a ∈ c.actions, (env a).getD .none = .fired) ∧
    (BlockBy.evaluate c env = .none →
      combineConditions value ((ConditionKind.blocker, BlockBy.evaluate c env) :: results)
        = .none) ∧
    (BlockBy.evaluate c env = .fired →
      combineConditions value ((ConditionKind.blocker, BlockBy.evaluate c env) :: results)
        = combineConditions value results) ∧
    (BlockBy.evaluate c env = .none ∨ BlockBy.evaluate c env = .fired) := by
  refine ⟨?_, ?_, ?_, ?_⟩
  · unfold BlockBy.evaluate
    by_cases h : (c.actions.any fun a => ((env a).getD .none) == .fired) = true
    · simp only [if_pos h]
      simp only [List.any_eq_true, beq_iff_eq] at h
      simp [h]
    · simp only [if_neg h]
      simp only [List.any_eq_true, beq_iff_eq] at h
      constructor
      · intro hcontra
        exact absurd hcontra (by decide)
      · intro hcontra
        exact absurd hcontra h
  · intro h
    rw [h]
    simp [combineConditions]
  · intro h
    rw [h]
    have hne : ActionState.fired ≠ ActionState.none := by decide
    have hfil : List.filter (fun r : ConditionKind × ActionState =>
          r.1 != ConditionKind.blocker)
        ((ConditionKind.blocker, ActionState.fired) :: results) =
        List.filter (fun r => r.1 != ConditionKind.blocker) results := by
      rw [List.filter_cons_of_neg]
      simp
    simp only [combineConditions]
    rw [hfil]
    simp [hne]
  · unfold BlockBy.evaluate
    by_cases h : (c.actions.any fun a => ((env a).getD .none) == .fired) = true
    · exact Or.inl (by simp [h])
    · exact Or.inr (by simp [h])

/-- Witness for C4 (amended): a sibling in `Fired` blocks the host. -/
theorem blockBy_blocks_iff_some_sibling_fired_witness :
    (BlockBy.evaluate ⟨[1]⟩ (fun a => if a = 1 then some .fired else none) = .none) ∧
    (combineConditions (.bool true)
       [(ConditionKind.blocker,
         BlockBy.evaluate ⟨[1]⟩ (fun a => if a = 1 then some .fired else none))] =
       .none) := by
  have h := blockBy_blocks_iff_some_sibling_fired ⟨[1]⟩
    (fun a => if a = 1 then some .fired else none) (.bool true) []
  have h1 : BlockBy.evaluate ⟨[1]⟩
      (fun a => if a = 1 then some .fired else none) = .none := rfl
  exact ⟨h1, h.2.1 h1⟩

end BEI
